import Mathlib

/-!
Verification development for the dividend-dashboard portfolio backtester.

The repository's Streamlit page `pages/4_Portfolio_Backtest.py` (present in
the sources) owns input assembly and validation: stock-list clamping,
allocation-weight computation (Equal / Yield / Market-Cap / Custom) and the
`np.isclose` weight validation gate.  Those parts are embedded here directly
from that file.

The simulation engine itself (`modules/portfolio_backtester.py`, class
`PortfolioBacktester`) is not among the available sources — only its caller
is.  The engine, the tax calculator, the rebalancer and the analytics layer
are therefore modelled from the specification (spec §3, §4.1–§4.4), as
flagged on each definition.  Machine floats are embedded as exact rationals.
-/

namespace Backtest

/-! ## Page-level input model (from `pages/4_Portfolio_Backtest.py`) -/

/-- Maximum number of portfolio stocks.  Modelled from the spec:
`BacktestConfig.MAX_PORTFOLIO_STOCKS` lives in `config.py`, which is not
among the available sources; the spec and the page's UI text fix it at 20. -/
def MAX_PORTFOLIO_STOCKS : Nat := 20

/-- Lines 71–73 of the page: when more than `MAX_PORTFOLIO_STOCKS` stocks are
selected, a sidebar error is shown and the selection is truncated to the
first `MAX_PORTFOLIO_STOCKS` entries; execution continues.  Returns the
stock list actually used and whether the error message was shown. -/
def clampSelectedStocks (sel : List String) : List String × Bool :=
  if sel.length > MAX_PORTFOLIO_STOCKS then
    (sel.take MAX_PORTFOLIO_STOCKS, true)
  else
    (sel, false)

/-- `np.isclose a b` with `atol = 0.01` and numpy's default `rtol = 1e-5`:
`|a - b| ≤ atol + rtol * |b|` (page lines 98 and 264). -/
def npIsClose (a b : ℚ) : Bool :=
  |a - b| ≤ 1 / 100 + (1 / 100000) * |b|

/-- The allocation methods offered by the page (line 76,
`BacktestConfig.ALLOCATION_METHODS`). -/
inductive AllocMethod
  | equalWeight
  | yieldWeight
  | marketCapWeight
  | customWeight
deriving DecidableEq

/-- A weight mapping, as the Python `weights` dict: association list
symbol ↦ weight.  The page only builds it with distinct keys (the
multiselect returns distinct symbols). -/
abbrev WeightMap : Type := List (String × ℚ)

/-- `sum(weights.values())`. -/
def sumWeights (w : WeightMap) : ℚ :=
  (w.map Prod.snd).sum

/-- Dividend yield of a symbol from the main dataframe, `none` for a NaN
entry; `fillna(0)` makes a missing yield count as 0 (page line 246). -/
def yieldOf (yields : String → Option ℚ) (s : String) : ℚ :=
  (yields s).getD 0

/-- Weight computation on the run path (page lines 240–261): Equal Weight
gives `1/n` each; Yield Weight divides each symbol's yield by the total
yield, falling back to equal weights when the total yield is not positive;
Market Cap Weight falls back to equal weights; Custom Weight uses the
slider-provided mapping. -/
def computeWeights (method : AllocMethod) (stocks : List String)
    (yields : String → Option ℚ) (custom : WeightMap) : WeightMap :=
  match method with
  | .equalWeight => stocks.map (fun s => (s, 1 / (stocks.length : ℚ)))
  | .yieldWeight =>
      let total := (stocks.map (yieldOf yields)).sum
      if 0 < total then
        stocks.map (fun s => (s, yieldOf yields s / total))
      else
        stocks.map (fun s => (s, 1 / (stocks.length : ℚ)))
  | .marketCapWeight => stocks.map (fun s => (s, 1 / (stocks.length : ℚ)))
  | .customWeight => custom

/-- Outcome of the page's pre-simulation phase: either execution stopped
(`st.error` + `st.stop`) with a message, or the run proceeds with the final
stock list and weight mapping. -/
inductive PageOutcome
  | stopped (msg : String)
  | ran (stocks : List String) (weights : WeightMap)
deriving DecidableEq

/-- The page's pre-simulation flow for a click of "Run Backtest"
(lines 64–266): clamp the selection, stop when it is empty, compute the
weights for the chosen allocation method, stop when
`np.isclose(sum, 1.0, atol=0.01)` fails.  Also returns whether the
max-stocks error message was shown. -/
def pageFlow (sel : List String) (method : AllocMethod)
    (yields : String → Option ℚ) (custom : WeightMap) :
    PageOutcome × Bool :=
  let clamped := clampSelectedStocks sel
  let stocks := clamped.1
  if stocks.length = 0 then
    (.stopped "no stocks selected", clamped.2)
  else
    let w := computeWeights method stocks yields custom
    if npIsClose (sumWeights w) 1 then
      (.ran stocks w, clamped.2)
    else
      (.stopped "weights must sum to 100%", clamped.2)

/-! ## Simulation engine data model

Modelled from the spec: `modules/portfolio_backtester.py` is not among the
available sources.  The definitions below follow spec §3 (data model),
§4.1 (day-stepping engine), §4.2 (tax calculator) and §4.3 (rebalancer).
Dates are ordinal day numbers; each trading day additionally carries a
month index (months since an epoch) for the monthly/quarterly schedules and
a flag marking it as a monthly-contribution day, both computed by the
calendar logic outside the engine. -/

/-- A tax lot: acquisition date (ordinal day), fractional share count and
cost basis per share (spec §3, Holding/TaxLot). -/
structure Lot where
  acqDate : Nat
  shares : ℚ
  costPerShare : ℚ
deriving DecidableEq

/-- Total share count of a list of lots. -/
def lotShares (lots : List Lot) : ℚ :=
  (lots.map Lot.shares).sum

/-- A holding: ordered FIFO queue of tax lots (oldest first) and cumulative
net dividends received.  The share count of spec §3 is derived as the sum of
the lots' shares. -/
structure Holding where
  lots : List Lot
  cumDiv : ℚ
deriving DecidableEq

/-- Fractional share count of a holding. -/
def Holding.shares (h : Holding) : ℚ :=
  lotShares h.lots

/-- One trading day of pre-fetched market data: ordinal date, month index,
whether the monthly-contribution schedule fires today, per-symbol close
price (`none` = gap in the series, carry the previous price forward) and
per-symbol dividend amount per share (positive exactly on ex-dates). -/
structure DayData where
  date : Nat
  monthIdx : Nat
  contribDay : Bool
  price : String → Option ℚ
  div : String → ℚ

/-- Tax configuration (spec §6): qualified/ordinary dividend rates and the
long-term capital-gains rate, plus the qualified-dividend holding threshold
in days (spec §3, default 60).  Modelled from the spec: no separate
short-term capital-gains rate is configured (spec §6 lists only three
rates), so short-term gains are taxed at the ordinary rate, the usual
ordinary-income treatment. -/
structure TaxConfig where
  qualifiedRate : ℚ
  ordinaryRate : ℚ
  longTermRate : ℚ
  qualifiedHoldingDays : Nat
deriving DecidableEq

/-- Rebalancing trigger policy (spec §4.3): none, monthly, quarterly,
semi-annual or annual. -/
inductive RebalFreq
  | noRebalancing
  | monthly
  | quarterly
  | semiannual
  | annual
deriving DecidableEq

/-- Months between consecutive trigger dates; `none` for the "none"
policy. -/
def RebalFreq.intervalMonths : RebalFreq → Option Nat
  | .noRebalancing => Option.none
  | .monthly => some 1
  | .quarterly => some 3
  | .semiannual => some 6
  | .annual => some 12

/-- Whether the rebalancing schedule fires on a day with month index
`curMonth`, given the month index of the last rebalance (or of the start
date).  The "none" policy never fires. -/
def rebalFires (f : RebalFreq) (lastMonth curMonth : Nat) : Bool :=
  match f.intervalMonths with
  | Option.none => false
  | some k => lastMonth + k ≤ curMonth

/-- Inputs of a run (spec §4.1 contract and §6). -/
structure RunInput where
  syms : List String
  weights : String → ℚ
  initial : ℚ
  contribution : ℚ
  dripEnabled : Bool
  dripFee : ℚ
  taxCfg : Option TaxConfig
  rebalFreq : RebalFreq
  rebalFee : ℚ

/-- A dividend-payment record (spec §6 dividend history table). -/
structure DivRecord where
  date : Nat
  symbol : String
  gross : ℚ
  tax : ℚ
  net : ℚ
  reinvested : Bool
deriving DecidableEq

/-- A tax-payment record (spec §4.2): date, symbol (`none` for a
rebalancing capital-gains payment covering several symbols), gross amount,
tax withheld, net amount. -/
structure TaxRecord where
  date : Nat
  symbol : Option String
  gross : ℚ
  tax : ℚ
  net : ℚ
deriving DecidableEq

/-- A rebalancing event (spec §3): date, fees paid and taxes paid.  The
per-trade list and the pre-trade/target weight vectors of spec §3 are not
needed by any claim and are omitted from the model. -/
structure RebalEvent where
  date : Nat
  fees : ℚ
  taxes : ℚ
deriving DecidableEq

/-- End-of-day snapshot recorded into the daily series: date, cash, share
count per symbol and total portfolio value. -/
structure Snapshot where
  date : Nat
  cash : ℚ
  shares : String → ℚ
  value : ℚ

/-- Full engine state.  Besides the PortfolioState of spec §3 (cash, price
map, holdings) it carries the accumulated histories and running totals that
make up the result bundle, and `marketGains`, the accumulated
mark-to-market value change `Σ shares × Δprice` (a derived ledger quantity
recorded for the accounting identity). -/
structure SimState where
  cash : ℚ
  prices : String → ℚ
  holdings : String → Holding
  lastRebalMonth : Nat
  contribTotal : ℚ
  netDivTotal : ℚ
  netDivCashTotal : ℚ
  divTaxTotal : ℚ
  capGainsTaxTotal : ℚ
  dripFeeTotal : ℚ
  rebalFeeTotal : ℚ
  marketGains : ℚ
  divHistory : List DivRecord
  taxHistory : List TaxRecord
  rebalHistory : List RebalEvent
  series : List Snapshot

/-- A SimulationInvariantError (spec §7): the violating date, the violating
symbol when one exists (negative shares) and a message. -/
structure SimError where
  date : Nat
  symbol : Option String
  msg : String

/-- Total market value of the holdings: `Σ shares × last known price` over
the run's symbols (spec §3). -/
def portValue (syms : List String) (P : String → ℚ) (H : String → Holding) : ℚ :=
  (syms.map (fun s => (H s).shares * P s)).sum

/-- Mark-to-market price resolution (spec §4.1 step 1): today's close when
the series has one, otherwise the previous last known price. -/
def resolvePrices (P : String → ℚ) (day : DayData) : String → ℚ :=
  fun s =>
    match day.price s with
    | some p => p
    | Option.none => P s

/-! ## Tax calculator (spec §4.2) -/

/-- Dividend tax for one DividendEvent.  Modelled from the spec: the lots
funding the held shares are classified per lot — a lot held at least
`qualifiedHoldingDays` as of the ex-date pays the qualified rate, the rest
pay the ordinary rate.  With tax modeling disabled the amount passes
through untaxed. -/
def divTax (cfg : Option TaxConfig) (exDate : Nat) (lots : List Lot) (amt : ℚ) : ℚ :=
  match cfg with
  | Option.none => 0
  | some c =>
      let qsh := lotShares (lots.filter (fun l => c.qualifiedHoldingDays ≤ exDate - l.acqDate))
      c.qualifiedRate * (qsh * amt) + c.ordinaryRate * ((lotShares lots - qsh) * amt)

/-- FIFO lot matching for a sale of `q` shares (spec §4.2, §9): consume
lots from the front of the queue, splitting the lot where the sale
boundary falls.  Returns the matched portions (earliest first) and the
remaining queue.  A request beyond the available shares consumes
everything. -/
def sellFIFO (lots : List Lot) (q : ℚ) : List Lot × List Lot :=
  match lots with
  | [] => ([], [])
  | l :: rest =>
      if q ≤ 0 then ([], lots)
      else if q < l.shares then
        ([⟨l.acqDate, q, l.costPerShare⟩], ⟨l.acqDate, l.shares - q, l.costPerShare⟩ :: rest)
      else
        let mr := sellFIFO rest (q - l.shares)
        (l :: mr.1, mr.2)

/-- Short-term classification of a matched portion (spec §4.2): holding
period (sale date − lot acquisition date) of at most 365 days. -/
def isShortTerm (saleDate : Nat) (l : Lot) : Bool :=
  saleDate - l.acqDate ≤ 365

/-- Realized gains of the matched portions of a sale, bucketed by holding
period: first component short-term (holding period ≤ 365 days), second
long-term (> 365 days).  Gain of a portion = shares × (sale price − cost
basis per share); losses enter negatively. -/
def realizedGains (matched : List Lot) (saleDate : Nat) (salePrice : ℚ) : ℚ × ℚ :=
  matched.foldl
    (fun acc l =>
      let g := l.shares * (salePrice - l.costPerShare)
      if isShortTerm saleDate l then (acc.1 + g, acc.2) else (acc.1, acc.2 + g))
    (0, 0)

/-- Capital-gains tax of one rebalancing event (spec §4.2): the configured
rate applies to the positive part of each bucket's realized gain — losses
reduce the taxable gain of their bucket but never produce a tax credit.
Short-term gains are taxed at the ordinary rate (see `TaxConfig`). -/
def capGainsTax (cfg : Option TaxConfig) (stGain ltGain : ℚ) : ℚ :=
  match cfg with
  | Option.none => 0
  | some c => c.ordinaryRate * max stGain 0 + c.longTermRate * max ltGain 0

/-! ## Engine steps (spec §4.1) -/

/-- Step 1, mark-to-market: resolve today's prices (carrying gaps forward)
and add today's mark-to-market value change `Σ shares × Δprice` to the
ledger. -/
def mtmStep (inp : RunInput) (day : DayData) (st : SimState) : SimState :=
  let P := resolvePrices st.prices day
  let g := (inp.syms.map (fun s => (st.holdings s).shares * (P s - st.prices s))).sum
  { st with prices := P, marketGains := st.marketGains + g }

/-- Step 2 for one symbol: apply a DividendEvent whose ex-date is today
when shares were held at the prior close.  Gross = shares × amount; the tax
calculator withholds the dividend tax; with DRIP enabled (and a positive
price) the net amount minus the DRIP fee buys additional fractional shares
as a new TaxLot dated today, otherwise the net amount accrues to cash. -/
def divSym (inp : RunInput) (day : DayData) (st : SimState) (s : String) : SimState :=
  let p := st.prices s
  let h := st.holdings s
  let amt := day.div s
  if 0 < amt ∧ 0 < h.shares then
    let gross := h.shares * amt
    let tax := divTax inp.taxCfg day.date h.lots amt
    let net := gross - tax
    if inp.dripEnabled ∧ 0 < p then
      let fee := inp.dripFee * net
      let invest := net - fee
      { st with
        holdings := Function.update st.holdings s
          ⟨h.lots ++ [⟨day.date, invest / p, p⟩], h.cumDiv + net⟩
        netDivTotal := st.netDivTotal + net
        dripFeeTotal := st.dripFeeTotal + fee
        divTaxTotal := st.divTaxTotal + tax
        divHistory := ⟨day.date, s, gross, tax, net, true⟩ :: st.divHistory
        taxHistory :=
          if inp.taxCfg.isSome then
            ⟨day.date, some s, gross, tax, net⟩ :: st.taxHistory
          else st.taxHistory }
    else
      { st with
        cash := st.cash + net
        holdings := Function.update st.holdings s ⟨h.lots, h.cumDiv + net⟩
        netDivTotal := st.netDivTotal + net
        netDivCashTotal := st.netDivCashTotal + net
        divTaxTotal := st.divTaxTotal + tax
        divHistory := ⟨day.date, s, gross, tax, net, false⟩ :: st.divHistory
        taxHistory :=
          if inp.taxCfg.isSome then
            ⟨day.date, some s, gross, tax, net⟩ :: st.taxHistory
          else st.taxHistory }
  else st

/-- Step 2, dividend application across all symbols. -/
def divStep (inp : RunInput) (day : DayData) (st : SimState) : SimState :=
  inp.syms.foldl (divSym inp day) st

/-- Deploy `amount × weight s` of cash into symbol `s` at the current
price, creating a new TaxLot dated `date`.  Symbols with a non-positive
target amount or without a positive price are skipped (their cash stays in
the balance). -/
def buyWeightSym (inp : RunInput) (date : Nat) (amount : ℚ) (st : SimState) (s : String) :
    SimState :=
  let spend := inp.weights s * amount
  let p := st.prices s
  if 0 < spend ∧ 0 < p then
    let h := st.holdings s
    { st with
      cash := st.cash - spend
      holdings := Function.update st.holdings s
        ⟨h.lots ++ [⟨date, spend / p, p⟩], h.cumDiv⟩ }
  else st

/-- Deploy an amount of cash across the symbols according to the target
weights (spec §4.1 step 3 and the initial allocation). -/
def deployCash (inp : RunInput) (date : Nat) (st : SimState) (amount : ℚ) : SimState :=
  inp.syms.foldl (buyWeightSym inp date amount) st

/-- Step 3, monthly contribution: on a scheduled day the contribution is
added to cash and immediately deployed across the target weights. -/
def contribStep (inp : RunInput) (day : DayData) (st : SimState) : SimState :=
  if day.contribDay ∧ 0 < inp.contribution then
    let st1 := { st with
      cash := st.cash + inp.contribution
      contribTotal := st.contribTotal + inp.contribution }
    deployCash inp day.date st1 inp.contribution
  else st

/-- Rebalancing sale for one overweight symbol (spec §4.3): sell the excess
over the target value at the current price, matching the sold shares to
FIFO lots; the proceeds accrue to cash and the flat percentage fee on the
gross trade value is subtracted from cash.  The accumulator carries the
event's running short-term and long-term realized gains. -/
def sellSym (inp : RunInput) (day : DayData) (totV : ℚ)
    (acc : SimState × ℚ × ℚ) (s : String) : SimState × ℚ × ℚ :=
  let st := acc.1
  let p := st.prices s
  let h := st.holdings s
  let cur := h.shares * p
  let tgt := inp.weights s * totV
  if tgt < cur ∧ 0 < p then
    let q := (cur - tgt) / p
    let mr := sellFIFO h.lots q
    let proceeds := lotShares mr.1 * p
    let fee := inp.rebalFee * proceeds
    let g := realizedGains mr.1 day.date p
    ({ st with
        cash := st.cash + proceeds - fee
        holdings := Function.update st.holdings s ⟨mr.2, h.cumDiv⟩
        rebalFeeTotal := st.rebalFeeTotal + fee },
      acc.2.1 + g.1, acc.2.2 + g.2)
  else acc

/-- Rebalancing purchase for one underweight symbol (spec §4.3): buy the
gap to the target value with the freed proceeds; the flat percentage fee on
the gross trade value is subtracted from cash. -/
def rebalBuySym (inp : RunInput) (day : DayData) (totV : ℚ)
    (st : SimState) (s : String) : SimState :=
  let p := st.prices s
  let h := st.holdings s
  let cur := h.shares * p
  let tgt := inp.weights s * totV
  if cur < tgt ∧ 0 < p then
    let spend := tgt - cur
    let fee := inp.rebalFee * spend
    { st with
      cash := st.cash - spend - fee
      holdings := Function.update st.holdings s
        ⟨h.lots ++ [⟨day.date, spend / p, p⟩], h.cumDiv⟩
      rebalFeeTotal := st.rebalFeeTotal + fee }
  else st

/-- Sell phase of a rebalancing pass: fold the per-symbol sale over the
symbol list, accumulating the event's short-term and long-term realized
gains. -/
def rebalSellPhase (inp : RunInput) (day : DayData) (totV : ℚ) (st : SimState) :
    SimState × ℚ × ℚ :=
  inp.syms.foldl (sellSym inp day totV) (st, 0, 0)

/-- Buy phase of a rebalancing pass: fold the per-symbol purchase over the
symbol list. -/
def rebalBuyPhase (inp : RunInput) (day : DayData) (totV : ℚ) (st : SimState) : SimState :=
  inp.syms.foldl (rebalBuySym inp day totV) st

/-- Pay the capital-gains tax of a rebalancing event from cash. -/
def payCapGainsTax (st : SimState) (tax : ℚ) : SimState :=
  { st with cash := st.cash - tax, capGainsTaxTotal := st.capGainsTaxTotal + tax }

/-- One full rebalancing pass (spec §4.3): sell the excess of every
overweight symbol (realizing gains through the tax calculator), pay the
event's capital-gains tax from cash, buy every underweight symbol up to
target, and record the event — one RebalancingEvent and, with tax modeling
enabled, one tax-payment record. -/
def rebalExec (inp : RunInput) (day : DayData) (st : SimState) : SimState :=
  let totV := st.cash + portValue inp.syms st.prices st.holdings
  let sold := rebalSellPhase inp day totV st
  let tax := capGainsTax inp.taxCfg sold.2.1 sold.2.2
  let st3 := rebalBuyPhase inp day totV (payCapGainsTax sold.1 tax)
  { st3 with
    lastRebalMonth := day.monthIdx
    rebalHistory := ⟨day.date, st3.rebalFeeTotal - st.rebalFeeTotal, tax⟩ :: st3.rebalHistory
    taxHistory :=
      if inp.taxCfg.isSome then
        ⟨day.date, Option.none, sold.2.1 + sold.2.2, tax, sold.2.1 + sold.2.2 - tax⟩
          :: st3.taxHistory
      else st3.taxHistory }

/-- Step 4, rebalancing: execute a rebalancing pass when the schedule
fires. -/
def rebalStep (inp : RunInput) (day : DayData) (st : SimState) : SimState :=
  if rebalFires inp.rebalFreq st.lastRebalMonth day.monthIdx then rebalExec inp day st
  else st

/-- Invariant check (spec §7, SimulationInvariantError): negative cash or a
negative share count aborts the run, reporting the violating date and, for
shares, the violating symbol. -/
def checkInvariant (syms : List String) (date : Nat) (st : SimState) : Option SimError :=
  if st.cash < 0 then some ⟨date, Option.none, "negative cash"⟩
  else
    match syms.find? (fun s => decide ((st.holdings s).shares < 0)) with
    | some s => some ⟨date, some s, "negative shares"⟩
    | Option.none => Option.none

/-- End-of-day snapshot (spec §4.1 step 5). -/
def snapOf (inp : RunInput) (day : DayData) (st : SimState) : Snapshot :=
  ⟨day.date, st.cash, fun s => (st.holdings s).shares,
    st.cash + portValue inp.syms st.prices st.holdings⟩

/-- One simulated trading day, in the fixed order of spec §4.1:
mark-to-market, dividends, contribution, rebalancing, invariant check,
snapshot. -/
def stepDay (inp : RunInput) (st : SimState) (day : DayData) : Except SimError SimState :=
  let st1 := mtmStep inp day st
  let st2 := divStep inp day st1
  let st3 := contribStep inp day st2
  let st4 := rebalStep inp day st3
  match checkInvariant inp.syms day.date st4 with
  | some e => Except.error e
  | Option.none => Except.ok { st4 with series := snapOf inp day st4 :: st4.series }

/-- The empty state before the start date: the initial investment sits in
cash, no holdings, no last known prices, empty histories. -/
def initState (inp : RunInput) (d0 : DayData) : SimState :=
  { cash := inp.initial
    prices := fun _ => 0
    holdings := fun _ => ⟨[], 0⟩
    lastRebalMonth := d0.monthIdx
    contribTotal := 0
    netDivTotal := 0
    netDivCashTotal := 0
    divTaxTotal := 0
    capGainsTaxTotal := 0
    dripFeeTotal := 0
    rebalFeeTotal := 0
    marketGains := 0
    divHistory := []
    taxHistory := []
    rebalHistory := []
    series := [] }

/-- The start date (spec §3 lifecycle): the PortfolioState is created from
the initial allocation — the start day's prices are resolved and the
initial investment is deployed across the target weights — then checked and
snapshot. -/
def initDay (inp : RunInput) (d0 : DayData) : Except SimError SimState :=
  let st1 := mtmStep inp d0 (initState inp d0)
  let st2 := deployCash inp d0.date st1 inp.initial
  match checkInvariant inp.syms d0.date st2 with
  | some e => Except.error e
  | Option.none => Except.ok { st2 with series := snapOf inp d0 st2 :: st2.series }

/-- Advance the state through the remaining trading days, aborting on the
first invariant violation. -/
def runDays (inp : RunInput) (st : SimState) : List DayData → Except SimError SimState
  | [] => Except.ok st
  | d :: rest =>
      match stepDay inp st d with
      | Except.error e => Except.error e
      | Except.ok st1 => runDays inp st1 rest

/-- The full backtest run (spec §4.1 contract): initial allocation on the
first trading day, then one transition per remaining trading day.  The
final state is the frozen, immutable result bundle — its history and series
fields are the tables of spec §6.  A run without any trading day fails with
a configuration-level error. -/
def run_backtest (inp : RunInput) (days : List DayData) : Except SimError SimState :=
  match days with
  | [] => Except.error ⟨0, Option.none, "no price data in range"⟩
  | d0 :: rest =>
      match initDay inp d0 with
      | Except.error e => Except.error e
      | Except.ok st => runDays inp st rest

/-! ## Risk & performance analytics (spec §4.4)

Modelled from the spec: pure functions over the finished value series.
Square roots of rationals are irrational in general, so the metric
definitions take the square-root routine as an explicit parameter
`sqrtFn`; every claim proved about them holds for an arbitrary square
root, which subsumes the float `sqrt` of the missing sources. -/

/-- Daily simple percentage returns between consecutive value points; the
first day has no defined return (spec §4.4). -/
def dailyReturns (vals : List ℚ) : List ℚ :=
  (vals.zip vals.tail).map (fun pr => pr.2 / pr.1 - 1)

/-- Arithmetic mean, 0 on the empty list. -/
def meanQ (l : List ℚ) : ℚ :=
  if l.length = 0 then 0 else l.sum / (l.length : ℚ)

/-- Population variance, 0 on the empty list. -/
def varQ (l : List ℚ) : ℚ :=
  meanQ (l.map (fun x => (x - meanQ l) ^ 2))

/-- Sharpe ratio (spec §4.4): `(mean r − risk_free_daily) / stdev r × √252`,
defined as 0 — not a division fault — when the standard deviation of the
daily returns is 0 (equivalently, when their variance is 0). -/
def sharpeRatio (sqrtFn : ℚ → ℚ) (r : List ℚ) (riskFreeDaily : ℚ) : ℚ :=
  if varQ r = 0 then 0
  else (meanQ r - riskFreeDaily) / sqrtFn (varQ r) * sqrtFn 252

/-- Sortino ratio (spec §4.4): as Sharpe but with the standard deviation of
the negative daily returns only, with the same zero-guard. -/
def sortinoRatio (sqrtFn : ℚ → ℚ) (r : List ℚ) (riskFreeDaily : ℚ) : ℚ :=
  let dn := r.filter (fun x => x < 0)
  if varQ dn = 0 then 0
  else (meanQ r - riskFreeDaily) / sqrtFn (varQ dn) * sqrtFn 252

/-- Drawdown series: `value / running-max value − 1` per day, the running
maximum seeded with the first value. -/
def ddFrom (m : ℚ) : List ℚ → List ℚ
  | [] => []
  | v :: rest => (v / max m v - 1) :: ddFrom (max m v) rest

/-- Minimum of a list of rationals, 0 on the empty list. -/
def listMin : List ℚ → ℚ
  | [] => 0
  | x :: xs => xs.foldl min x

/-- Max drawdown (spec §4.4): `min over time of (value / running-max value − 1)`,
0 for an empty series. -/
def maxDrawdown (vals : List ℚ) : ℚ :=
  match vals with
  | [] => 0
  | v :: rest => listMin (ddFrom v (v :: rest))

/-- Calmar ratio (spec §4.4): `CAGR / |max_drawdown|`, undefined (reported
as null/NaN, here `none`) when the max drawdown is 0. -/
def calmarRatio (cagr maxDd : ℚ) : Option ℚ :=
  if maxDd = 0 then Option.none else some (cagr / |maxDd|)

/-! ## Result of the page flow including the engine run

`pageRun` is the composite of the page's pre-simulation phase with the
engine: simulation work happens only on the `ran` branch, so a `stopped`
result witnesses that no backtester was constructed and no day was
simulated. -/

/-- Weight lookup in the mapping passed to the backtester, 0 for a symbol
outside the mapping. -/
def weightFn (w : WeightMap) (s : String) : ℚ :=
  (((w.find? (fun pr => pr.1 = s)).map Prod.snd).getD 0)

/-- Assemble the engine input from the page's stock list, weight mapping
and remaining sidebar settings. -/
def mkRunInput (stocks : List String) (w : WeightMap) (base : RunInput) : RunInput :=
  { base with syms := stocks, weights := weightFn w }

/-- Result of a click of "Run Backtest": either the page stopped before
simulation, or the engine ran to completion (with the engine's own
success-or-invariant-error outcome inside). -/
inductive PageResult
  | stopped (msg : String)
  | completed (r : Except SimError SimState)

/-- Whether the page stopped before any simulation work. -/
def PageResult.stoppedEarly : PageResult → Bool
  | .stopped _ => true
  | .completed _ => false

/-- The full page pipeline: pre-simulation phase, then — only when it
survived validation — the engine run on the pre-fetched data. -/
def pageRun (sel : List String) (method : AllocMethod)
    (yields : String → Option ℚ) (custom : WeightMap)
    (base : RunInput) (days : List DayData) : PageResult :=
  match (pageFlow sel method yields custom).1 with
  | .stopped m => .stopped m
  | .ran stocks w => .completed (run_backtest (mkRunInput stocks w base) days)

/-! ## Helper lemmas -/

theorem sum_map_sub {α : Type} (l : List α) (f g : α → ℚ) :
    (l.map (fun x => f x - g x)).sum = (l.map f).sum - (l.map g).sum := by
  induction l with
  | nil => simp
  | cons b t ih => simp only [List.map_cons, List.sum_cons, ih]; ring

theorem sum_map_ite (l : List String) (hnd : l.Nodup) (a : String) (ha : a ∈ l)
    (f : String → ℚ) (v : ℚ) :
    (l.map (fun s => if s = a then v else f s)).sum = (l.map f).sum - f a + v := by
  induction l with
  | nil => cases ha
  | cons b t ih =>
      rcases List.nodup_cons.mp hnd with ⟨hbt, hnt⟩
      rcases List.mem_cons.mp ha with hba | hat
      · subst hba
        simp only [List.map_cons, List.sum_cons, if_pos rfl]
        have ht : t.map (fun s => if s = a then v else f s) = t.map f := by
          apply List.map_congr_left
          intro s hs
          have hsa : s ≠ a := fun hh => hbt (hh ▸ hs)
          simp [hsa]
        rw [ht]; simp only [if_true]; ring
      · have hba : b ≠ a := by
          intro hh; subst hh; exact hbt hat
        simp only [List.map_cons, List.sum_cons, if_neg hba]
        rw [ih hnt hat]; ring

theorem portValue_update (syms : List String) (hnd : syms.Nodup) (a : String)
    (ha : a ∈ syms) (P : String → ℚ) (H : String → Holding) (h1 : Holding) :
    portValue syms P (Function.update H a h1)
      = portValue syms P H - (H a).shares * P a + h1.shares * P a := by
  unfold portValue
  have hm : syms.map (fun s => ((Function.update H a h1) s).shares * P s)
      = syms.map (fun s => if s = a then h1.shares * P a else (H s).shares * P s) := by
    apply List.map_congr_left
    intro s _
    by_cases hsa : s = a
    · subst hsa; simp [Function.update_apply]
    · simp [Function.update_apply, hsa]
  rw [hm, sum_map_ite syms hnd a ha (fun s => (H s).shares * P s) (h1.shares * P a)]

theorem portValue_prices (syms : List String) (P Q : String → ℚ) (H : String → Holding) :
    portValue syms Q H
      = portValue syms P H + (syms.map (fun s => (H s).shares * (Q s - P s))).sum := by
  unfold portValue
  induction syms with
  | nil => simp
  | cons b t ih => simp only [List.map_cons, List.sum_cons, ih]; ring

theorem portValue_empty (syms : List String) (P : String → ℚ) :
    portValue syms P (fun _ => ⟨[], 0⟩) = 0 := by
  unfold portValue
  induction syms with
  | nil => simp
  | cons b t ih => simp [Holding.shares, lotShares, ih]

theorem lotShares_append (l : List Lot) (x : Lot) :
    lotShares (l ++ [x]) = lotShares l + x.shares := by
  unfold lotShares
  simp

theorem sellFIFO_split (lots : List Lot) (q : ℚ) :
    lotShares (sellFIFO lots q).1 + lotShares (sellFIFO lots q).2 = lotShares lots := by
  induction lots generalizing q with
  | nil => simp [sellFIFO, lotShares]
  | cons l rest ih =>
      unfold sellFIFO
      by_cases h0 : q ≤ 0
      · simp [h0, lotShares]
      · by_cases h1 : q < l.shares
        · simp only [if_neg h0, if_pos h1]
          simp only [lotShares, List.map_cons, List.sum_cons, List.map_nil, List.sum_nil]
          ring
        · simp only [if_neg h0, if_neg h1]
          simp only [lotShares, List.map_cons, List.sum_cons]
          have := ih (q - l.shares)
          unfold lotShares at this
          linarith

theorem foldl_preserve {σ α : Type} (P : σ → Prop) (f : σ → α → σ) (big : List α)
    (hf : ∀ st x, x ∈ big → P st → P (f st x)) :
    ∀ (l : List α), (∀ x ∈ l, x ∈ big) → ∀ st, P st → P (l.foldl f st) := by
  intro l
  induction l with
  | nil => intro _ st h; simpa using h
  | cons b t ih =>
      intro hsub st h
      simp only [List.foldl_cons]
      exact ih (fun x hx => hsub x (List.mem_cons_of_mem b hx))
        (f st b) (hf st b (hsub b (List.mem_cons_self b t)) h)

theorem foldl_proj {σ α β : Type} (proj : σ → β) (f : σ → α → σ)
    (h : ∀ st x, proj (f st x) = proj st) :
    ∀ (l : List α) (st : σ), proj (l.foldl f st) = proj st := by
  intro l
  induction l with
  | nil => intro st; rfl
  | cons b t ih => intro st; simp only [List.foldl_cons, ih, h]

/-! ## The accounting ledger -/

/-- Right-hand side of the accounting identity: initial investment, plus
contributions, plus all net dividends (reinvested or not), minus all fees
(DRIP and rebalancing), minus the capital-gains taxes paid from cash
(dividend taxes are withheld before the net amount is credited), plus the
accumulated mark-to-market gains. -/
def ledger (inp : RunInput) (st : SimState) : ℚ :=
  inp.initial + st.contribTotal + st.netDivTotal
    - (st.dripFeeTotal + st.rebalFeeTotal) - st.capGainsTaxTotal + st.marketGains

/-- The conservation invariant: cash plus holdings market value equals the
ledger. -/
def AcctOK (inp : RunInput) (st : SimState) : Prop :=
  st.cash + portValue inp.syms st.prices st.holdings = ledger inp st

theorem acct_mtm (inp : RunInput) (day : DayData) (st : SimState)
    (h : AcctOK inp st) : AcctOK inp (mtmStep inp day st) := by
  unfold AcctOK ledger at h ⊢
  unfold mtmStep
  simp only
  rw [portValue_prices inp.syms st.prices (resolvePrices st.prices day) st.holdings]
  linarith

theorem acct_buyWeightSym (inp : RunInput) (date : Nat) (amount : ℚ)
    (hnd : inp.syms.Nodup) (st : SimState) (s : String) (hs : s ∈ inp.syms)
    (h : AcctOK inp st) : AcctOK inp (buyWeightSym inp date amount st s) := by
  unfold AcctOK ledger at h ⊢
  unfold buyWeightSym
  simp only
  split
  case isTrue hc =>
    simp only
    rw [portValue_update inp.syms hnd s hs]
    have hsh : (Holding.mk ((st.holdings s).lots ++ [⟨date, inp.weights s * amount / st.prices s, st.prices s⟩])
        (st.holdings s).cumDiv).shares
        = (st.holdings s).shares + inp.weights s * amount / st.prices s := by
      simp [Holding.shares, lotShares_append]
    rw [hsh]
    have hp : st.prices s ≠ 0 := ne_of_gt hc.2
    have hdm : inp.weights s * amount / st.prices s * st.prices s = inp.weights s * amount :=
      div_mul_cancel₀ _ hp
    nlinarith [h, hdm]
  case isFalse => exact h

theorem acct_deployCash (inp : RunInput) (date : Nat) (amount : ℚ)
    (hnd : inp.syms.Nodup) (st : SimState)
    (h : AcctOK inp st) : AcctOK inp (deployCash inp date st amount) := by
  unfold deployCash
  exact foldl_preserve (AcctOK inp) (buyWeightSym inp date amount) inp.syms
    (fun st1 s hs h1 => acct_buyWeightSym inp date amount hnd st1 s hs h1)
    inp.syms (fun x hx => hx) st h

theorem acct_divSym (inp : RunInput) (day : DayData)
    (hnd : inp.syms.Nodup) (st : SimState) (s : String) (hs : s ∈ inp.syms)
    (h : AcctOK inp st) : AcctOK inp (divSym inp day st s) := by
  unfold AcctOK ledger at h ⊢
  unfold divSym
  simp only
  split
  case isFalse => exact h
  case isTrue hc =>
    split
    case isTrue hd =>
      simp only
      rw [portValue_update inp.syms hnd s hs]
      have hsh : (Holding.mk ((st.holdings s).lots ++
          [⟨day.date,
            ((st.holdings s).shares * day.div s - divTax inp.taxCfg day.date (st.holdings s).lots (day.div s)
              - inp.dripFee * ((st.holdings s).shares * day.div s - divTax inp.taxCfg day.date (st.holdings s).lots (day.div s)))
              / st.prices s, st.prices s⟩])
          ((st.holdings s).cumDiv + ((st.holdings s).shares * day.div s - divTax inp.taxCfg day.date (st.holdings s).lots (day.div s)))).shares
          = (st.holdings s).shares +
            ((st.holdings s).shares * day.div s - divTax inp.taxCfg day.date (st.holdings s).lots (day.div s)
              - inp.dripFee * ((st.holdings s).shares * day.div s - divTax inp.taxCfg day.date (st.holdings s).lots (day.div s)))
              / st.prices s := by
        simp [Holding.shares, lotShares_append]
      rw [hsh]
      have hp : st.prices s ≠ 0 := ne_of_gt hd.2
      have hdm :
          ((st.holdings s).shares * day.div s - divTax inp.taxCfg day.date (st.holdings s).lots (day.div s)
            - inp.dripFee * ((st.holdings s).shares * day.div s - divTax inp.taxCfg day.date (st.holdings s).lots (day.div s)))
            / st.prices s * st.prices s
          = ((st.holdings s).shares * day.div s - divTax inp.taxCfg day.date (st.holdings s).lots (day.div s)
            - inp.dripFee * ((st.holdings s).shares * day.div s - divTax inp.taxCfg day.date (st.holdings s).lots (day.div s))) :=
        div_mul_cancel₀ _ hp
      nlinarith [h, hdm]
    case isFalse =>
      simp only
      rw [portValue_update inp.syms hnd s hs]
      have hsh : (Holding.mk (st.holdings s).lots
          ((st.holdings s).cumDiv + ((st.holdings s).shares * day.div s - divTax inp.taxCfg day.date (st.holdings s).lots (day.div s)))).shares
          = (st.holdings s).shares := by
        simp [Holding.shares]
      rw [hsh]
      linarith

theorem acct_divStep (inp : RunInput) (day : DayData)
    (hnd : inp.syms.Nodup) (st : SimState)
    (h : AcctOK inp st) : AcctOK inp (divStep inp day st) := by
  unfold divStep
  exact foldl_preserve (AcctOK inp) (divSym inp day) inp.syms
    (fun st1 s hs h1 => acct_divSym inp day hnd st1 s hs h1)
    inp.syms (fun x hx => hx) st h

theorem acct_contribStep (inp : RunInput) (day : DayData)
    (hnd : inp.syms.Nodup) (st : SimState)
    (h : AcctOK inp st) : AcctOK inp (contribStep inp day st) := by
  unfold contribStep
  split
  case isFalse => exact h
  case isTrue hc =>
    apply acct_deployCash inp day.date inp.contribution hnd
    unfold AcctOK ledger at h ⊢
    simp only
    linarith

theorem acct_sellSym (inp : RunInput) (day : DayData) (totV : ℚ)
    (hnd : inp.syms.Nodup) (acc : SimState × ℚ × ℚ) (s : String) (hs : s ∈ inp.syms)
    (h : AcctOK inp acc.1) : AcctOK inp (sellSym inp day totV acc s).1 := by
  unfold AcctOK ledger at h ⊢
  unfold sellSym
  simp only
  split
  case isFalse => exact h
  case isTrue hc =>
    simp only
    rw [portValue_update inp.syms hnd s hs]
    have hsh : (Holding.mk (sellFIFO (acc.1.holdings s).lots
          (((acc.1.holdings s).shares * acc.1.prices s - inp.weights s * totV) / acc.1.prices s)).2
          (acc.1.holdings s).cumDiv).shares
        = (acc.1.holdings s).shares
          - lotShares (sellFIFO (acc.1.holdings s).lots
              (((acc.1.holdings s).shares * acc.1.prices s - inp.weights s * totV) / acc.1.prices s)).1 := by
      simp only [Holding.shares]
      have hsp := sellFIFO_split (acc.1.holdings s).lots
        ((lotShares (acc.1.holdings s).lots * acc.1.prices s - inp.weights s * totV) / acc.1.prices s)
      linarith [hsp]
    rw [hsh]
    nlinarith [h]

theorem acct_rebalBuySym (inp : RunInput) (day : DayData) (totV : ℚ)
    (hnd : inp.syms.Nodup) (st : SimState) (s : String) (hs : s ∈ inp.syms)
    (h : AcctOK inp st) : AcctOK inp (rebalBuySym inp day totV st s) := by
  unfold AcctOK ledger at h ⊢
  unfold rebalBuySym
  simp only
  split
  case isFalse => exact h
  case isTrue hc =>
    simp only
    rw [portValue_update inp.syms hnd s hs]
    have hsh : (Holding.mk ((st.holdings s).lots ++
        [⟨day.date, (inp.weights s * totV - (st.holdings s).shares * st.prices s) / st.prices s, st.prices s⟩])
        (st.holdings s).cumDiv).shares
        = (st.holdings s).shares
          + (inp.weights s * totV - (st.holdings s).shares * st.prices s) / st.prices s := by
      simp [Holding.shares, lotShares_append]
    rw [hsh]
    have hp : st.prices s ≠ 0 := ne_of_gt hc.2
    have hdm : (inp.weights s * totV - (st.holdings s).shares * st.prices s) / st.prices s * st.prices s
        = inp.weights s * totV - (st.holdings s).shares * st.prices s :=
      div_mul_cancel₀ _ hp
    nlinarith [h, hdm]

theorem acct_sellPhase (inp : RunInput) (day : DayData) (totV : ℚ)
    (hnd : inp.syms.Nodup) (st : SimState) (h : AcctOK inp st) :
    AcctOK inp (rebalSellPhase inp day totV st).1 := by
  unfold rebalSellPhase
  exact foldl_preserve (fun a => AcctOK inp a.1) (sellSym inp day totV) inp.syms
    (fun a s hs ha => acct_sellSym inp day totV hnd a s hs ha)
    inp.syms (fun x hx => hx) (st, 0, 0) h

theorem acct_buyPhase (inp : RunInput) (day : DayData) (totV : ℚ)
    (hnd : inp.syms.Nodup) (st : SimState) (h : AcctOK inp st) :
    AcctOK inp (rebalBuyPhase inp day totV st) := by
  unfold rebalBuyPhase
  exact foldl_preserve (AcctOK inp) (rebalBuySym inp day totV) inp.syms
    (fun st1 s hs h1 => acct_rebalBuySym inp day totV hnd st1 s hs h1)
    inp.syms (fun x hx => hx) st h

theorem acct_payCapGainsTax (inp : RunInput) (st : SimState) (tax : ℚ)
    (h : AcctOK inp st) : AcctOK inp (payCapGainsTax st tax) := by
  unfold AcctOK ledger at h ⊢
  unfold payCapGainsTax
  simp only
  linarith

theorem acct_setRecords (inp : RunInput) (st : SimState) (a : Nat)
    (b : List RebalEvent) (c : List TaxRecord) (h : AcctOK inp st) :
    AcctOK inp { st with lastRebalMonth := a, rebalHistory := b, taxHistory := c } := by
  unfold AcctOK ledger at h ⊢
  simp only
  exact h

theorem acct_rebalStep (inp : RunInput) (day : DayData) (hnd : inp.syms.Nodup)
    (st : SimState) (h : AcctOK inp st) : AcctOK inp (rebalStep inp day st) := by
  unfold rebalStep
  split
  case isFalse => exact h
  case isTrue hf =>
    unfold rebalExec
    simp only
    apply acct_setRecords
    apply acct_buyPhase inp day _ hnd
    apply acct_payCapGainsTax
    exact acct_sellPhase inp day _ hnd st h

theorem acct_stepDay (inp : RunInput) (day : DayData) (hnd : inp.syms.Nodup)
    (st st1 : SimState) (hok : stepDay inp st day = Except.ok st1)
    (h : AcctOK inp st) : AcctOK inp st1 := by
  unfold stepDay at hok
  simp only at hok
  have h4 : AcctOK inp (rebalStep inp day (contribStep inp day (divStep inp day (mtmStep inp day st)))) :=
    acct_rebalStep inp day hnd _
      (acct_contribStep inp day hnd _
        (acct_divStep inp day hnd _ (acct_mtm inp day st h)))
  revert hok
  split
  · intro hok; cases hok
  · intro hok
    cases hok
    unfold AcctOK ledger at h4 ⊢
    simp only
    exact h4

theorem acct_initDay (inp : RunInput) (d0 : DayData) (hnd : inp.syms.Nodup)
    (st1 : SimState) (hok : initDay inp d0 = Except.ok st1) : AcctOK inp st1 := by
  have h0 : AcctOK inp (initState inp d0) := by
    unfold AcctOK ledger initState
    simp only
    rw [portValue_empty]
    ring
  have h2 : AcctOK inp (deployCash inp d0.date (mtmStep inp d0 (initState inp d0)) inp.initial) :=
    acct_deployCash inp d0.date inp.initial hnd _ (acct_mtm inp d0 _ h0)
  unfold initDay at hok
  simp only at hok
  revert hok
  split
  · intro hok; cases hok
  · intro hok
    cases hok
    unfold AcctOK ledger at h2 ⊢
    simp only
    exact h2

theorem acct_runDays (inp : RunInput) (hnd : inp.syms.Nodup) :
    ∀ (days : List DayData) (st st1 : SimState),
      runDays inp st days = Except.ok st1 → AcctOK inp st → AcctOK inp st1 := by
  intro days
  induction days with
  | nil =>
      intro st st1 hok h
      unfold runDays at hok
      cases hok
      exact h
  | cons d rest ih =>
      intro st st1 hok h
      unfold runDays at hok
      revert hok
      split
      · intro hok; cases hok
      · intro hok
        rename_i st2 hstep
        exact ih st2 st1 hok (acct_stepDay inp d hnd st st2 hstep h)

theorem runDays_preserve (inp : RunInput) (Q : SimState → Prop)
    (hstep : ∀ st d st1, stepDay inp st d = Except.ok st1 → Q st → Q st1) :
    ∀ (days : List DayData) (st st1 : SimState),
      runDays inp st days = Except.ok st1 → Q st → Q st1 := by
  intro days
  induction days with
  | nil =>
      intro st st1 hok h
      unfold runDays at hok
      cases hok
      exact h
  | cons d rest ih =>
      intro st st1 hok h
      unfold runDays at hok
      revert hok
      split
      · intro hok; cases hok
      · intro hok
        rename_i st2 hstep1
        exact ih st2 st1 hok (hstep st d st2 hstep1 h)

/-! Projection lemmas: the fields each sub-step leaves untouched. -/

theorem mtmStep_fields (inp : RunInput) (day : DayData) (st : SimState) :
    (mtmStep inp day st).series = st.series ∧
    (mtmStep inp day st).rebalHistory = st.rebalHistory ∧
    (mtmStep inp day st).rebalFeeTotal = st.rebalFeeTotal ∧
    (mtmStep inp day st).capGainsTaxTotal = st.capGainsTaxTotal ∧
    (mtmStep inp day st).taxHistory = st.taxHistory :=
  ⟨rfl, rfl, rfl, rfl, rfl⟩

theorem divSym_fields (inp : RunInput) (day : DayData) (st : SimState) (s : String) :
    (divSym inp day st s).series = st.series ∧
    (divSym inp day st s).rebalHistory = st.rebalHistory ∧
    (divSym inp day st s).rebalFeeTotal = st.rebalFeeTotal ∧
    (divSym inp day st s).capGainsTaxTotal = st.capGainsTaxTotal := by
  unfold divSym
  simp only
  split
  · split
    · exact ⟨rfl, rfl, rfl, rfl⟩
    · exact ⟨rfl, rfl, rfl, rfl⟩
  · exact ⟨rfl, rfl, rfl, rfl⟩

theorem buyWeightSym_fields (inp : RunInput) (date : Nat) (amount : ℚ)
    (st : SimState) (s : String) :
    (buyWeightSym inp date amount st s).series = st.series ∧
    (buyWeightSym inp date amount st s).rebalHistory = st.rebalHistory ∧
    (buyWeightSym inp date amount st s).rebalFeeTotal = st.rebalFeeTotal ∧
    (buyWeightSym inp date amount st s).capGainsTaxTotal = st.capGainsTaxTotal ∧
    (buyWeightSym inp date amount st s).taxHistory = st.taxHistory := by
  unfold buyWeightSym
  simp only
  split
  · exact ⟨rfl, rfl, rfl, rfl, rfl⟩
  · exact ⟨rfl, rfl, rfl, rfl, rfl⟩

theorem divStep_fields (inp : RunInput) (day : DayData) (st : SimState) :
    (divStep inp day st).series = st.series ∧
    (divStep inp day st).rebalHistory = st.rebalHistory ∧
    (divStep inp day st).rebalFeeTotal = st.rebalFeeTotal ∧
    (divStep inp day st).capGainsTaxTotal = st.capGainsTaxTotal := by
  unfold divStep
  refine ⟨?_, ?_, ?_, ?_⟩
  · exact foldl_proj SimState.series (divSym inp day)
      (fun st1 s => (divSym_fields inp day st1 s).1) inp.syms st
  · exact foldl_proj SimState.rebalHistory (divSym inp day)
      (fun st1 s => (divSym_fields inp day st1 s).2.1) inp.syms st
  · exact foldl_proj SimState.rebalFeeTotal (divSym inp day)
      (fun st1 s => (divSym_fields inp day st1 s).2.2.1) inp.syms st
  · exact foldl_proj SimState.capGainsTaxTotal (divSym inp day)
      (fun st1 s => (divSym_fields inp day st1 s).2.2.2) inp.syms st

theorem deployCash_fields (inp : RunInput) (date : Nat) (st : SimState) (amount : ℚ) :
    (deployCash inp date st amount).series = st.series ∧
    (deployCash inp date st amount).rebalHistory = st.rebalHistory ∧
    (deployCash inp date st amount).rebalFeeTotal = st.rebalFeeTotal ∧
    (deployCash inp date st amount).capGainsTaxTotal = st.capGainsTaxTotal := by
  unfold deployCash
  refine ⟨?_, ?_, ?_, ?_⟩
  · exact foldl_proj SimState.series (buyWeightSym inp date amount)
      (fun st1 s => (buyWeightSym_fields inp date amount st1 s).1) inp.syms st
  · exact foldl_proj SimState.rebalHistory (buyWeightSym inp date amount)
      (fun st1 s => (buyWeightSym_fields inp date amount st1 s).2.1) inp.syms st
  · exact foldl_proj SimState.rebalFeeTotal (buyWeightSym inp date amount)
      (fun st1 s => (buyWeightSym_fields inp date amount st1 s).2.2.1) inp.syms st
  · exact foldl_proj SimState.capGainsTaxTotal (buyWeightSym inp date amount)
      (fun st1 s => (buyWeightSym_fields inp date amount st1 s).2.2.2.1) inp.syms st

theorem contribStep_fields (inp : RunInput) (day : DayData) (st : SimState) :
    (contribStep inp day st).series = st.series ∧
    (contribStep inp day st).rebalHistory = st.rebalHistory ∧
    (contribStep inp day st).rebalFeeTotal = st.rebalFeeTotal ∧
    (contribStep inp day st).capGainsTaxTotal = st.capGainsTaxTotal := by
  unfold contribStep
  split
  · exact deployCash_fields inp day.date _ inp.contribution
  · exact ⟨rfl, rfl, rfl, rfl⟩

theorem sellSym_fields (inp : RunInput) (day : DayData) (totV : ℚ)
    (acc : SimState × ℚ × ℚ) (s : String) :
    (sellSym inp day totV acc s).1.series = acc.1.series ∧
    (sellSym inp day totV acc s).1.rebalHistory = acc.1.rebalHistory ∧
    (sellSym inp day totV acc s).1.taxHistory = acc.1.taxHistory := by
  unfold sellSym
  simp only
  split
  · exact ⟨rfl, rfl, rfl⟩
  · exact ⟨rfl, rfl, rfl⟩

theorem rebalBuySym_fields (inp : RunInput) (day : DayData) (totV : ℚ)
    (st : SimState) (s : String) :
    (rebalBuySym inp day totV st s).series = st.series ∧
    (rebalBuySym inp day totV st s).rebalHistory = st.rebalHistory ∧
    (rebalBuySym inp day totV st s).taxHistory = st.taxHistory := by
  unfold rebalBuySym
  simp only
  split
  · exact ⟨rfl, rfl, rfl⟩
  · exact ⟨rfl, rfl, rfl⟩

theorem sellPhase_fields (inp : RunInput) (day : DayData) (totV : ℚ) (st : SimState) :
    (rebalSellPhase inp day totV st).1.series = st.series ∧
    (rebalSellPhase inp day totV st).1.rebalHistory = st.rebalHistory ∧
    (rebalSellPhase inp day totV st).1.taxHistory = st.taxHistory := by
  unfold rebalSellPhase
  refine ⟨?_, ?_, ?_⟩
  · exact foldl_proj (fun a : SimState × ℚ × ℚ => a.1.series) (sellSym inp day totV)
      (fun a s => (sellSym_fields inp day totV a s).1) inp.syms (st, 0, 0)
  · exact foldl_proj (fun a : SimState × ℚ × ℚ => a.1.rebalHistory) (sellSym inp day totV)
      (fun a s => (sellSym_fields inp day totV a s).2.1) inp.syms (st, 0, 0)
  · exact foldl_proj (fun a : SimState × ℚ × ℚ => a.1.taxHistory) (sellSym inp day totV)
      (fun a s => (sellSym_fields inp day totV a s).2.2) inp.syms (st, 0, 0)

theorem buyPhase_fields (inp : RunInput) (day : DayData) (totV : ℚ) (st : SimState) :
    (rebalBuyPhase inp day totV st).series = st.series ∧
    (rebalBuyPhase inp day totV st).rebalHistory = st.rebalHistory ∧
    (rebalBuyPhase inp day totV st).taxHistory = st.taxHistory := by
  unfold rebalBuyPhase
  refine ⟨?_, ?_, ?_⟩
  · exact foldl_proj SimState.series (rebalBuySym inp day totV)
      (fun st1 s => (rebalBuySym_fields inp day totV st1 s).1) inp.syms st
  · exact foldl_proj SimState.rebalHistory (rebalBuySym inp day totV)
      (fun st1 s => (rebalBuySym_fields inp day totV st1 s).2.1) inp.syms st
  · exact foldl_proj SimState.taxHistory (rebalBuySym inp day totV)
      (fun st1 s => (rebalBuySym_fields inp day totV st1 s).2.2) inp.syms st

theorem rebalStep_series (inp : RunInput) (day : DayData) (st : SimState) :
    (rebalStep inp day st).series = st.series := by
  unfold rebalStep
  split
  · unfold rebalExec
    simp only [(buyPhase_fields inp day _ _).1, payCapGainsTax,
      (sellPhase_fields inp day _ _).1]
  · rfl

theorem rebalStep_none (inp : RunInput) (day : DayData) (st : SimState)
    (hf : inp.rebalFreq = RebalFreq.noRebalancing) : rebalStep inp day st = st := by
  unfold rebalStep
  rw [hf]
  simp [rebalFires, RebalFreq.intervalMonths]

theorem rebalRecord_emit (inp : RunInput) (day : DayData) (st st3 : SimState)
    (tax sg lg : ℚ)
    (h1 : st3.rebalHistory = st.rebalHistory) (h2 : st3.taxHistory = st.taxHistory) :
    (∃ ev : RebalEvent,
      ({ st3 with
          lastRebalMonth := day.monthIdx
          rebalHistory := ⟨day.date, st3.rebalFeeTotal - st.rebalFeeTotal, tax⟩ :: st3.rebalHistory
          taxHistory := if inp.taxCfg.isSome then
              (⟨day.date, Option.none, sg + lg, tax, sg + lg - tax⟩ : TaxRecord) :: st3.taxHistory
            else st3.taxHistory } : SimState).rebalHistory = ev :: st.rebalHistory ∧
        ev.date = day.date) ∧
    (inp.taxCfg.isSome = true →
      ∃ tr : TaxRecord,
        ({ st3 with
            lastRebalMonth := day.monthIdx
            rebalHistory := ⟨day.date, st3.rebalFeeTotal - st.rebalFeeTotal, tax⟩ :: st3.rebalHistory
            taxHistory := if inp.taxCfg.isSome then
                (⟨day.date, Option.none, sg + lg, tax, sg + lg - tax⟩ : TaxRecord) :: st3.taxHistory
              else st3.taxHistory } : SimState).taxHistory = tr :: st.taxHistory ∧
        tr.date = day.date) := by
  constructor
  · refine ⟨⟨day.date, st3.rebalFeeTotal - st.rebalFeeTotal, tax⟩, ?_, rfl⟩
    show _ :: st3.rebalHistory = _ :: st.rebalHistory
    rw [h1]
  · intro hsome
    refine ⟨⟨day.date, Option.none, sg + lg, tax, sg + lg - tax⟩, ?_, rfl⟩
    show (if inp.taxCfg.isSome then _ :: st3.taxHistory else st3.taxHistory)
        = _ :: st.taxHistory
    rw [if_pos hsome, h2]

theorem rebalStep_fires (inp : RunInput) (day : DayData) (st : SimState)
    (hf : rebalFires inp.rebalFreq st.lastRebalMonth day.monthIdx = true) :
    (∃ ev : RebalEvent, (rebalStep inp day st).rebalHistory = ev :: st.rebalHistory ∧
        ev.date = day.date) ∧
    (inp.taxCfg.isSome = true →
      ∃ tr : TaxRecord, (rebalStep inp day st).taxHistory = tr :: st.taxHistory ∧
        tr.date = day.date) := by
  unfold rebalStep
  split
  case isFalse hc => exact absurd hf hc
  case isTrue =>
    unfold rebalExec
    simp only
    apply rebalRecord_emit
    · rw [(buyPhase_fields inp day _ _).2.1]
      exact (sellPhase_fields inp day _ _).2.1
    · rw [(buyPhase_fields inp day _ _).2.2]
      exact (sellPhase_fields inp day _ _).2.2

theorem realizedGains_go (saleDate : Nat) (salePrice : ℚ) :
    ∀ (matched : List Lot) (a b : ℚ),
      matched.foldl
        (fun acc l =>
          let g := l.shares * (salePrice - l.costPerShare)
          if isShortTerm saleDate l then (acc.1 + g, acc.2) else (acc.1, acc.2 + g))
        (a, b)
      = (a + ((matched.filter (isShortTerm saleDate)).map
            (fun l => l.shares * (salePrice - l.costPerShare))).sum,
         b + ((matched.filter (fun l => ! isShortTerm saleDate l)).map
            (fun l => l.shares * (salePrice - l.costPerShare))).sum) := by
  intro matched
  induction matched with
  | nil => intro a b; simp
  | cons l rest ih =>
      intro a b
      cases hb : isShortTerm saleDate l with
      | true =>
          simp [List.foldl_cons, List.filter_cons, hb]
          rw [ih]
          simp only [Prod.mk.injEq]
          constructor
          · ring
          · trivial
      | false =>
          simp [List.foldl_cons, List.filter_cons, hb]
          rw [ih]
          simp only [Prod.mk.injEq]
          constructor
          · trivial
          · ring

theorem realizedGains_eq (matched : List Lot) (saleDate : Nat) (salePrice : ℚ) :
    realizedGains matched saleDate salePrice
      = (((matched.filter (isShortTerm saleDate)).map
            (fun l => l.shares * (salePrice - l.costPerShare))).sum,
         ((matched.filter (fun l => ! isShortTerm saleDate l)).map
            (fun l => l.shares * (salePrice - l.costPerShare))).sum) := by
  unfold realizedGains
  rw [realizedGains_go saleDate salePrice matched 0 0]
  simp

theorem foldl_min_le (xs : List ℚ) : ∀ x : ℚ, xs.foldl min x ≤ x := by
  induction xs with
  | nil => intro x; exact le_refl x
  | cons y ys ih =>
      intro x
      calc (y :: ys).foldl min x = ys.foldl min (min x y) := by rw [List.foldl_cons]
        _ ≤ min x y := ih (min x y)
        _ ≤ x := min_le_left x y

theorem maxDrawdown_nonpos (vals : List ℚ) : maxDrawdown vals ≤ 0 := by
  cases vals with
  | nil => exact le_refl 0
  | cons v rest =>
      unfold maxDrawdown
      unfold ddFrom
      unfold listMin
      have hd : v / max v v - 1 ≤ 0 := by
        rw [max_self]
        by_cases hv : v = 0
        · subst hv; norm_num
        · rw [div_self hv]; norm_num
      calc (ddFrom (max v v) rest).foldl min (v / max v v - 1)
            ≤ v / max v v - 1 := foldl_min_le _ _
        _ ≤ 0 := hd

theorem checkInvariant_none_nonneg (syms : List String) (date : Nat) (st : SimState)
    (h : checkInvariant syms date st = Option.none) :
    0 ≤ st.cash ∧ ∀ s ∈ syms, 0 ≤ (st.holdings s).shares := by
  unfold checkInvariant at h
  revert h
  split
  · intro h; cases h
  · rename_i hcash
    split
    · intro h; cases h
    · rename_i hfind
      intro _
      refine ⟨le_of_not_lt hcash, ?_⟩
      intro s hs
      have hx := List.find?_eq_none.mp hfind s hs
      simp only [decide_eq_true_eq] at hx
      exact le_of_not_lt hx

theorem checkInvariant_some_reports (syms : List String) (date : Nat) (st : SimState)
    (e : SimError) (h : checkInvariant syms date st = some e) :
    e.date = date ∧
    (st.cash < 0 ∨ ∃ s ∈ syms, e.symbol = some s ∧ (st.holdings s).shares < 0) := by
  unfold checkInvariant at h
  revert h
  split
  · rename_i hcash
    intro h
    cases h
    exact ⟨rfl, Or.inl hcash⟩
  · rename_i hcash
    split
    · rename_i s hfind
      intro h
      cases h
      refine ⟨rfl, Or.inr ⟨s, List.mem_of_find?_eq_some hfind, rfl, ?_⟩⟩
      have hx := List.find?_some hfind
      simpa [decide_eq_true_eq] using hx
    · intro h; cases h

theorem stepDay_snap_nonneg (inp : RunInput) (st : SimState) (d : DayData)
    (st1 : SimState) (hok : stepDay inp st d = Except.ok st1)
    (h : ∀ snap ∈ st.series, 0 ≤ snap.cash ∧ ∀ s ∈ inp.syms, 0 ≤ snap.shares s) :
    ∀ snap ∈ st1.series, 0 ≤ snap.cash ∧ ∀ s ∈ inp.syms, 0 ≤ snap.shares s := by
  unfold stepDay at hok
  simp only at hok
  split at hok
  · cases hok
  · rename_i hchk
    cases hok
    intro snap hsnap
    rcases List.mem_cons.mp hsnap with hsn | hmem
    · subst hsn
      rcases checkInvariant_none_nonneg _ _ _ hchk with ⟨h1, h2⟩
      exact ⟨h1, h2⟩
    · have hser : (rebalStep inp d (contribStep inp d (divStep inp d (mtmStep inp d st)))).series
          = st.series := by
        rw [rebalStep_series, (contribStep_fields inp d _).1, (divStep_fields inp d _).1,
          (mtmStep_fields inp d st).1]
      exact h snap (hser ▸ hmem)

theorem stepDay_norebal (inp : RunInput) (hf : inp.rebalFreq = RebalFreq.noRebalancing)
    (st : SimState) (d : DayData) (st1 : SimState)
    (hok : stepDay inp st d = Except.ok st1)
    (h : st.rebalHistory = [] ∧ st.rebalFeeTotal = 0 ∧ st.capGainsTaxTotal = 0) :
    st1.rebalHistory = [] ∧ st1.rebalFeeTotal = 0 ∧ st1.capGainsTaxTotal = 0 := by
  unfold stepDay at hok
  simp only at hok
  rw [rebalStep_none inp d _ hf] at hok
  split at hok
  · cases hok
  · cases hok
    refine ⟨?_, ?_, ?_⟩
    · show (contribStep inp d (divStep inp d (mtmStep inp d st))).rebalHistory = []
      rw [(contribStep_fields inp d _).2.1, (divStep_fields inp d _).2.1,
        (mtmStep_fields inp d st).2.1]
      exact h.1
    · show (contribStep inp d (divStep inp d (mtmStep inp d st))).rebalFeeTotal = 0
      rw [(contribStep_fields inp d _).2.2.1, (divStep_fields inp d _).2.2.1,
        (mtmStep_fields inp d st).2.2.1]
      exact h.2.1
    · show (contribStep inp d (divStep inp d (mtmStep inp d st))).capGainsTaxTotal = 0
      rw [(contribStep_fields inp d _).2.2.2, (divStep_fields inp d _).2.2.2,
        (mtmStep_fields inp d st).2.2.2.1]
      exact h.2.2

/-! ## Concrete runs used by witnesses and counterexamples -/

/-- A concrete tax configuration: 15% qualified, 20% ordinary, 15%
long-term, 60-day qualified-holding threshold. -/
def exTax : TaxConfig := ⟨3/20, 1/5, 3/20, 60⟩

/-- A concrete run input: one symbol, full weight, $1000 initial, DRIP at
0% fee, tax modeling on, no rebalancing. -/
def exInput : RunInput :=
  { syms := ["A"]
    weights := fun _ => 1
    initial := 1000
    contribution := 0
    dripEnabled := true
    dripFee := 0
    taxCfg := some exTax
    rebalFreq := RebalFreq.noRebalancing
    rebalFee := 0 }

/-- Trading day one: price 100, no dividend. -/
def exDay1 : DayData := ⟨1000, 10, false, fun _ => some 100, fun _ => 0⟩

/-- Trading day two: price 110, $1-per-share dividend with ex-date today. -/
def exDay2 : DayData := ⟨1001, 10, false, fun _ => some 110, fun _ => 1⟩

/-- The two-day data set of the concrete run. -/
def exDays : List DayData := [exDay1, exDay2]

/-- The result bundle of the concrete run. -/
def exRes : SimState :=
  match run_backtest exInput exDays with
  | Except.ok st => st
  | Except.error _ => initState exInput exDay1

/-! ## Claim theorems -/

/-- C1 (counterexample): the conservation law as stated by the spec fails
on a completed run.  In the concrete two-day run the left side (final cash
plus final shares times final price) is 1108: the price moved from 100 to
110 on ten shares (+100) and an 8-net dividend was reinvested (+8).  The
stated right side — initial investment plus contributions plus net
dividends **not reinvested** minus all fees minus **all** taxes — is
1000 + 0 + 0 − 0 − 2 = 998; the gap of 110 is far beyond floating-point
tolerance. -/
theorem conservation_as_stated_cex :
    run_backtest exInput exDays = Except.ok exRes ∧
    100 ≤ |exRes.cash + portValue exInput.syms exRes.prices exRes.holdings
      - (exInput.initial + exRes.contribTotal + exRes.netDivCashTotal
        - (exRes.dripFeeTotal + exRes.rebalFeeTotal)
        - (exRes.divTaxTotal + exRes.capGainsTaxTotal))| :=
  ⟨by with_unfolding_all rfl, by with_unfolding_all decide⟩

/-- C1 (amended): for every completed run (with distinct symbols), final
cash plus the market value of the final holdings equals the initial
investment, plus all contributions, plus all net dividends (reinvested or
not), minus all fees (DRIP and rebalancing), minus the capital-gains taxes
paid from cash (dividend taxes are already netted out of the dividends),
plus the accumulated mark-to-market gains `Σ shares × Δprice`.  Over exact
rationals the identity is exact. -/
theorem run_conservation (inp : RunInput) (days : List DayData) (res : SimState)
    (hnd : inp.syms.Nodup) (hok : run_backtest inp days = Except.ok res) :
    res.cash + portValue inp.syms res.prices res.holdings
      = inp.initial + res.contribTotal + res.netDivTotal
        - (res.dripFeeTotal + res.rebalFeeTotal) - res.capGainsTaxTotal
        + res.marketGains := by
  have hacct : AcctOK inp res := by
    unfold run_backtest at hok
    revert hok
    cases days with
    | nil => intro hok; cases hok
    | cons d0 rest =>
        simp only
        cases hinit : initDay inp d0 with
        | error e => intro hok; cases hok
        | ok st0 =>
            intro hok
            exact acct_runDays inp hnd rest st0 res hok (acct_initDay inp d0 hnd st0 hinit)
  unfold AcctOK ledger at hacct
  linarith

/-- C1 (witness): the amended conservation identity evaluated on the
concrete two-day run: 0 + 1108 = 1000 + 0 + 8 − 0 − 0 + 100. -/
theorem run_conservation_witness :
    run_backtest exInput exDays = Except.ok exRes ∧
    exRes.cash + portValue exInput.syms exRes.prices exRes.holdings
      = exInput.initial + exRes.contribTotal + exRes.netDivTotal
        - (exRes.dripFeeTotal + exRes.rebalFeeTotal) - exRes.capGainsTaxTotal
        + exRes.marketGains :=
  ⟨by with_unfolding_all rfl,
   run_conservation exInput exDays exRes (by decide) (by with_unfolding_all rfl)⟩

/-- C2: on every completed run the cash balance and every holding's share
count recorded in the daily series are nonnegative — the engine checks the
invariant at the end of every simulated day and a violation aborts the run
(the `Except.error` result carries no series, histories or holdings, so no
partial results are returned); moreover every `SimulationInvariantError`
the check can produce reports the violating date and, for a negative share
count, the violating symbol. -/
theorem run_invariant_nonneg (inp : RunInput) (days : List DayData) (res : SimState)
    (hok : run_backtest inp days = Except.ok res) :
    (∀ snap ∈ res.series, 0 ≤ snap.cash ∧ ∀ s ∈ inp.syms, 0 ≤ snap.shares s) ∧
    (∀ (date : Nat) (st : SimState) (e : SimError),
      checkInvariant inp.syms date st = some e →
      e.date = date ∧
      (st.cash < 0 ∨ ∃ s ∈ inp.syms, e.symbol = some s ∧ (st.holdings s).shares < 0)) := by
  constructor
  · unfold run_backtest at hok
    revert hok
    cases days with
    | nil => intro hok; cases hok
    | cons d0 rest =>
        simp only
        cases hinit : initDay inp d0 with
        | error e => intro hok; cases hok
        | ok st0 =>
            intro hok
            have h0 : ∀ snap ∈ st0.series,
                0 ≤ snap.cash ∧ ∀ s ∈ inp.syms, 0 ≤ snap.shares s := by
              unfold initDay at hinit
              simp only at hinit
              split at hinit
              · cases hinit
              · rename_i hchk
                cases hinit
                intro snap hsnap
                rcases List.mem_cons.mp hsnap with hsn | hmem
                · subst hsn
                  rcases checkInvariant_none_nonneg _ _ _ hchk with ⟨h1, h2⟩
                  exact ⟨h1, h2⟩
                · have hser : (deployCash inp d0.date (mtmStep inp d0 (initState inp d0)) inp.initial).series = [] := by
                    rw [(deployCash_fields inp d0.date _ inp.initial).1]
                    rfl
                  rw [hser] at hmem
                  cases hmem
            exact runDays_preserve inp
              (fun st => ∀ snap ∈ st.series, 0 ≤ snap.cash ∧ ∀ s ∈ inp.syms, 0 ≤ snap.shares s)
              (fun st d st1 hs hq => stepDay_snap_nonneg inp st d st1 hs hq)
              rest st0 res hok h0
  · intro date st e hchk
    exact checkInvariant_some_reports inp.syms date st e hchk

/-- C2 (witness): the invariant statement evaluated on the concrete
two-day run. -/
theorem run_invariant_nonneg_witness :
    (∀ snap ∈ exRes.series, 0 ≤ snap.cash ∧ ∀ s ∈ exInput.syms, 0 ≤ snap.shares s) ∧
    (∀ (date : Nat) (st : SimState) (e : SimError),
      checkInvariant exInput.syms date st = some e →
      e.date = date ∧
      (st.cash < 0 ∨ ∃ s ∈ exInput.syms, e.symbol = some s ∧ (st.holdings s).shares < 0)) :=
  run_invariant_nonneg exInput exDays exRes (by with_unfolding_all rfl)

/-- C3: the engine is a pure function of its explicit inputs — the run
input (symbols, weights, amounts, DRIP/tax/rebalancing settings) and the
pre-fetched per-day market data.  Two invocations on equal inputs produce
identical result bundles; in this functional model there is no other
channel (no process-wide mutable state) an output could depend on. -/
theorem run_backtest_deterministic (i1 i2 : RunInput) (d1 d2 : List DayData)
    (hi : i1 = i2) (hd : d1 = d2) : run_backtest i1 d1 = run_backtest i2 d2 := by
  rw [hi, hd]

/-- C3 (witness): two invocations on the concrete input coincide. -/
theorem run_backtest_deterministic_witness :
    run_backtest exInput exDays = run_backtest exInput exDays :=
  run_backtest_deterministic exInput exInput exDays exDays rfl rfl

/-- C8: with rebalancing frequency "none" ("No Rebalancing"), every
completed run has an empty rebalancing history, zero accumulated
rebalancing fees and zero capital-gains taxes, whatever the other inputs;
and the "none" trigger never fires on any date. -/
theorem none_rebalancing_zero (inp : RunInput) (days : List DayData) (res : SimState)
    (hfreq : inp.rebalFreq = RebalFreq.noRebalancing)
    (hok : run_backtest inp days = Except.ok res) :
    res.rebalHistory = [] ∧ res.rebalFeeTotal = 0 ∧ res.capGainsTaxTotal = 0 ∧
    ∀ lastMonth curMonth : Nat,
      rebalFires RebalFreq.noRebalancing lastMonth curMonth = false := by
  have hmain : res.rebalHistory = [] ∧ res.rebalFeeTotal = 0 ∧ res.capGainsTaxTotal = 0 := by
    unfold run_backtest at hok
    revert hok
    cases days with
    | nil => intro hok; cases hok
    | cons d0 rest =>
        simp only
        cases hinit : initDay inp d0 with
        | error e => intro hok; cases hok
        | ok st0 =>
            intro hok
            have h0 : st0.rebalHistory = [] ∧ st0.rebalFeeTotal = 0 ∧
                st0.capGainsTaxTotal = 0 := by
              unfold initDay at hinit
              simp only at hinit
              split at hinit
              · cases hinit
              · cases hinit
                refine ⟨?_, ?_, ?_⟩
                · show (deployCash inp d0.date (mtmStep inp d0 (initState inp d0)) inp.initial).rebalHistory = []
                  rw [(deployCash_fields inp d0.date _ inp.initial).2.1,
                    (mtmStep_fields inp d0 _).2.1]
                  rfl
                · show (deployCash inp d0.date (mtmStep inp d0 (initState inp d0)) inp.initial).rebalFeeTotal = 0
                  rw [(deployCash_fields inp d0.date _ inp.initial).2.2.1,
                    (mtmStep_fields inp d0 _).2.2.1]
                  rfl
                · show (deployCash inp d0.date (mtmStep inp d0 (initState inp d0)) inp.initial).capGainsTaxTotal = 0
                  rw [(deployCash_fields inp d0.date _ inp.initial).2.2.2,
                    (mtmStep_fields inp d0 _).2.2.2.1]
                  rfl
            exact runDays_preserve inp
              (fun st => st.rebalHistory = [] ∧ st.rebalFeeTotal = 0 ∧ st.capGainsTaxTotal = 0)
              (fun st d st1 hs hq => stepDay_norebal inp hfreq st d st1 hs hq)
              rest st0 res hok h0
  exact ⟨hmain.1, hmain.2.1, hmain.2.2, fun lastMonth curMonth => rfl⟩

/-- C8 (witness): the "none"-frequency statement evaluated on the concrete
two-day run. -/
theorem none_rebalancing_zero_witness :
    exRes.rebalHistory = [] ∧ exRes.rebalFeeTotal = 0 ∧ exRes.capGainsTaxTotal = 0 ∧
    ∀ lastMonth curMonth : Nat,
      rebalFires RebalFreq.noRebalancing lastMonth curMonth = false :=
  none_rebalancing_zero exInput exDays exRes rfl (by with_unfolding_all rfl)

/-- C6: FIFO lot matching and capital-gains taxation on rebalancing sales.
(i) A sale covering the whole earliest lot consumes it entirely before
touching later lots; (ii) a sale inside the earliest lot splits it, keeping
its acquisition date and cost basis, and leaves every later lot untouched;
(iii) the short-term classification of a matched portion holds exactly when
its holding period (sale date − acquisition date) is at most 365 days;
(iv) the realized gains are the per-bucket sums of `shares × (sale price −
cost basis)` over the matched portions, short-term and long-term; (v) the
tax applies the configured rates — the ordinary rate for the short-term
bucket, the configured long-term rate for the long-term bucket — to the
positive part of each bucket's gain, so losses reduce the taxable gain but
the tax is never negative; (vi) a rebalancing trigger emits exactly one
RebalancingEvent, and, with tax modeling on, exactly one tax-payment
record, both dated with the event date. -/
theorem fifo_capital_gains (c : TaxConfig)
    (ho : 0 ≤ c.ordinaryRate) (hl : 0 ≤ c.longTermRate)
    (l : Lot) (rest matched : List Lot) (q : ℚ) (saleDate : Nat) (p g1 g2 : ℚ)
    (inp : RunInput) (day : DayData) (st : SimState)
    (hfires : rebalFires inp.rebalFreq st.lastRebalMonth day.monthIdx = true) :
    (0 < q → l.shares ≤ q →
      sellFIFO (l :: rest) q
        = (l :: (sellFIFO rest (q - l.shares)).1, (sellFIFO rest (q - l.shares)).2)) ∧
    (0 < q → q < l.shares →
      sellFIFO (l :: rest) q
        = ([⟨l.acqDate, q, l.costPerShare⟩],
           ⟨l.acqDate, l.shares - q, l.costPerShare⟩ :: rest)) ∧
    (isShortTerm saleDate l = true ↔ saleDate - l.acqDate ≤ 365) ∧
    realizedGains matched saleDate p
      = (((matched.filter (isShortTerm saleDate)).map
            (fun lo => lo.shares * (p - lo.costPerShare))).sum,
         ((matched.filter (fun lo => ! isShortTerm saleDate lo)).map
            (fun lo => lo.shares * (p - lo.costPerShare))).sum) ∧
    capGainsTax (some c) g1 g2
      = c.ordinaryRate * max g1 0 + c.longTermRate * max g2 0 ∧
    0 ≤ capGainsTax (some c) g1 g2 ∧
    (∃ ev : RebalEvent, (rebalStep inp day st).rebalHistory = ev :: st.rebalHistory ∧
        ev.date = day.date) ∧
    (inp.taxCfg.isSome = true →
      ∃ tr : TaxRecord, (rebalStep inp day st).taxHistory = tr :: st.taxHistory ∧
        tr.date = day.date) := by
  refine ⟨?_, ?_, ?_, ?_, rfl, ?_, (rebalStep_fires inp day st hfires).1,
    (rebalStep_fires inp day st hfires).2⟩
  · intro hq hle
    conv_lhs => rw [sellFIFO]
    rw [if_neg (not_le.mpr hq), if_neg (not_lt.mpr hle)]
  · intro hq hlt
    conv_lhs => rw [sellFIFO]
    rw [if_neg (not_le.mpr hq), if_pos hlt]
  · simp [isShortTerm]
  · exact realizedGains_eq matched saleDate p
  · show (0:ℚ) ≤ c.ordinaryRate * max g1 0 + c.longTermRate * max g2 0
    have h1 : (0:ℚ) ≤ max g1 0 := le_max_right g1 0
    have h2 : (0:ℚ) ≤ max g2 0 := le_max_right g2 0
    have ha := mul_nonneg ho h1
    have hb := mul_nonneg hl h2
    linarith

/-- Run input for a firing rebalancing trigger: monthly frequency. -/
def exRebInput : RunInput := { exInput with rebalFreq := RebalFreq.monthly }

/-- A trading day in the following month (month index 11). -/
def exDay3 : DayData := ⟨1031, 11, false, fun _ => some 100, fun _ => 0⟩

/-- C6 (witness): the FIFO/capital-gains statement evaluated at concrete
lots (a 5-share lot from day 100 at basis 10 followed by a 5-share lot
from day 200 at basis 20), a 7-share sale on day 500 at price 30, concrete
gains 10 and −5, and a monthly-rebalancing state whose trigger fires. -/
theorem fifo_capital_gains_witness :
    (0 < (7:ℚ) → (⟨100, 5, 10⟩ : Lot).shares ≤ 7 →
      sellFIFO [⟨100, 5, 10⟩, ⟨200, 5, 20⟩] 7
        = ((⟨100, 5, 10⟩ : Lot) :: (sellFIFO [⟨200, 5, 20⟩] (7 - (⟨100, 5, 10⟩ : Lot).shares)).1,
           (sellFIFO [⟨200, 5, 20⟩] (7 - (⟨100, 5, 10⟩ : Lot).shares)).2)) ∧
    (0 < (7:ℚ) → (7:ℚ) < (⟨100, 5, 10⟩ : Lot).shares →
      sellFIFO [⟨100, 5, 10⟩, ⟨200, 5, 20⟩] 7
        = ([⟨100, 7, 10⟩], (⟨100, 5 - 7, 10⟩ : Lot) :: [⟨200, 5, 20⟩])) ∧
    (isShortTerm 500 ⟨100, 5, 10⟩ = true ↔ 500 - (⟨100, 5, 10⟩ : Lot).acqDate ≤ 365) ∧
    realizedGains [⟨100, 2, 10⟩, ⟨600, 3, 20⟩] 500 30
      = ((([(⟨100, 2, 10⟩ : Lot), ⟨600, 3, 20⟩].filter (isShortTerm 500)).map
            (fun lo => lo.shares * (30 - lo.costPerShare))).sum,
         (([(⟨100, 2, 10⟩ : Lot), ⟨600, 3, 20⟩].filter (fun lo => ! isShortTerm 500 lo)).map
            (fun lo => lo.shares * (30 - lo.costPerShare))).sum) ∧
    capGainsTax (some exTax) 10 (-5)
      = exTax.ordinaryRate * max 10 0 + exTax.longTermRate * max (-5) 0 ∧
    0 ≤ capGainsTax (some exTax) 10 (-5) ∧
    (∃ ev : RebalEvent,
      (rebalStep exRebInput exDay3 (initState exRebInput exDay1)).rebalHistory
        = ev :: (initState exRebInput exDay1).rebalHistory ∧ ev.date = exDay3.date) ∧
    (exRebInput.taxCfg.isSome = true →
      ∃ tr : TaxRecord,
        (rebalStep exRebInput exDay3 (initState exRebInput exDay1)).taxHistory
          = tr :: (initState exRebInput exDay1).taxHistory ∧ tr.date = exDay3.date) :=
  fifo_capital_gains exTax (by with_unfolding_all decide) (by with_unfolding_all decide)
    ⟨100, 5, 10⟩ [⟨200, 5, 20⟩] [⟨100, 2, 10⟩, ⟨600, 3, 20⟩] 7 500 30 10 (-5)
    exRebInput exDay3 (initState exRebInput exDay1) (by decide)

/-- C7: the max-drawdown metric is never positive on any value series, and
the zero-volatility / zero-drawdown edge cases return defined sentinels
rather than raising a division fault: Sharpe is 0 when the variance of the
daily returns is 0, Sortino is 0 when the variance of the negative daily
returns is 0, and Calmar is null (`none`) when the max drawdown is 0 —
each for an arbitrary square-root routine `sqrtFn`. -/
theorem metrics_guards (sqrtFn : ℚ → ℚ) (vals r : List ℚ) (riskFree cagr : ℚ) :
    maxDrawdown vals ≤ 0 ∧
    (varQ r = 0 → sharpeRatio sqrtFn r riskFree = 0) ∧
    (varQ (r.filter (fun x => x < 0)) = 0 → sortinoRatio sqrtFn r riskFree = 0) ∧
    calmarRatio cagr 0 = Option.none ∧
    (maxDrawdown vals ≠ 0 →
      calmarRatio cagr (maxDrawdown vals) = some (cagr / |maxDrawdown vals|)) := by
  refine ⟨maxDrawdown_nonpos vals, ?_, ?_, ?_, ?_⟩
  · intro h
    unfold sharpeRatio
    rw [if_pos h]
  · intro h
    unfold sortinoRatio
    simp only
    rw [if_pos h]
  · unfold calmarRatio
    rw [if_pos rfl]
  · intro h
    unfold calmarRatio
    rw [if_neg h]

/-! ## Page-level claim theorems -/

theorem sum_map_constQ {α : Type} (l : List α) (c : ℚ) :
    (l.map (fun _ => c)).sum = l.length * c := by
  induction l with
  | nil => simp
  | cons b t ih =>
      simp only [List.map_cons, List.sum_cons, List.length_cons, ih]
      push_cast
      ring

theorem sum_map_div {α : Type} (l : List α) (f : α → ℚ) (c : ℚ) :
    (l.map (fun x => f x / c)).sum = (l.map f).sum / c := by
  induction l with
  | nil => simp
  | cons b t ih => simp [List.map_cons, List.sum_cons, ih, add_div]

theorem npIsClose_far (s : ℚ) (h : 1/100 + 1/100000 < |s - 1|) :
    npIsClose s 1 = false := by
  unfold npIsClose
  simp only [decide_eq_false_iff_not, not_le, abs_one, mul_one]
  linarith

/-- C4 (amended, pageFlow level): when the computed weight sum is more than
`0.01 + 1e-5` away from 1 — the exact `np.isclose(·, 1.0, atol=0.01)`
rejection threshold with numpy's default `rtol = 1e-5` — the page stops
with the weight validation error. -/
theorem weight_gate_flow (sel : List String) (method : AllocMethod)
    (yields : String → Option ℚ) (custom : WeightMap)
    (hne : ¬ ((clampSelectedStocks sel).1.length = 0))
    (hfar : 1/100 + 1/100000 <
      |sumWeights (computeWeights method (clampSelectedStocks sel).1 yields custom) - 1|) :
    pageFlow sel method yields custom
      = (PageOutcome.stopped "weights must sum to 100%", (clampSelectedStocks sel).2) := by
  unfold pageFlow
  simp only
  rw [if_neg hne]
  rw [npIsClose_far _ hfar]
  simp

/-- C4 (amended): a weight sum more than `0.01 + 1e-5` away from 1 stops
the page before any simulation work — `pageRun` returns `stopped`, a value
that contains no backtester, no run result and no simulated day. -/
theorem weight_gate (sel : List String) (method : AllocMethod)
    (yields : String → Option ℚ) (custom : WeightMap)
    (base : RunInput) (days : List DayData)
    (hne : ¬ ((clampSelectedStocks sel).1.length = 0))
    (hfar : 1/100 + 1/100000 <
      |sumWeights (computeWeights method (clampSelectedStocks sel).1 yields custom) - 1|) :
    pageRun sel method yields custom base days
      = PageResult.stopped "weights must sum to 100%" := by
  unfold pageRun
  rw [weight_gate_flow sel method yields custom hne hfar]

/-- Custom weight mapping in the `np.isclose` tolerance gap: its sum is
`1 − (1/100 + 1/200000) = 0.989995`, i.e. 0.010005 away from 1. -/
def cexWeights : WeightMap := [("A", 1 - (1/100 + 1/200000))]

/-- C4 (counterexample): a weight mapping whose values sum to more than
0.01 away from 1.0 — distance 0.010005 here — for which no error is raised
and the engine runs: `np.isclose(s, 1.0, atol=0.01)` also accepts sums up
to `0.01 + rtol·1.0 = 0.01001` away because of numpy's default
`rtol = 1e-5`. -/
theorem weight_gate_cex :
    1/100 < |sumWeights cexWeights - 1| ∧
    (pageRun ["A"] AllocMethod.customWeight (fun _ => Option.none) cexWeights
      exInput exDays).stoppedEarly = false :=
  ⟨by with_unfolding_all decide, by with_unfolding_all decide⟩

/-- C4 (witness): the amended gate at a concrete mapping with weight sum 2:
the page stops with the weight error before any simulation work. -/
theorem weight_gate_witness :
    pageRun ["A"] AllocMethod.customWeight (fun _ => Option.none) [("A", 2)]
      exInput exDays = PageResult.stopped "weights must sum to 100%" :=
  weight_gate ["A"] AllocMethod.customWeight (fun _ => Option.none) [("A", 2)]
    exInput exDays (by with_unfolding_all decide) (by with_unfolding_all decide)

/-- C5 (amended): selecting more than `MAX_PORTFOLIO_STOCKS` stocks does
not fail the run: an error message is shown (`true` flag) and the page
proceeds exactly as if the first `MAX_PORTFOLIO_STOCKS` selected stocks had
been selected — the list is truncated, not rejected. -/
theorem clamp_truncates (sel : List String) (method : AllocMethod)
    (yields : String → Option ℚ) (custom : WeightMap)
    (h : MAX_PORTFOLIO_STOCKS < sel.length) :
    pageFlow sel method yields custom
      = ((pageFlow (sel.take MAX_PORTFOLIO_STOCKS) method yields custom).1, true) := by
  unfold pageFlow clampSelectedStocks
  simp only
  rw [if_pos h]
  have hlen : ¬ (MAX_PORTFOLIO_STOCKS < (sel.take MAX_PORTFOLIO_STOCKS).length) := by
    simp [List.length_take]
  rw [if_neg hlen]
  by_cases hz : (sel.take MAX_PORTFOLIO_STOCKS).length = 0
  · rw [if_pos hz, if_pos hz]
  · rw [if_neg hz, if_neg hz]
    by_cases hnp : npIsClose
        (sumWeights (computeWeights method (sel.take MAX_PORTFOLIO_STOCKS) yields custom)) 1
        = true
    · rw [if_pos hnp, if_pos hnp]
    · rw [if_neg hnp, if_neg hnp]

/-- Twenty-one distinct stock symbols. -/
def sel21 : List String :=
  ["A01", "A02", "A03", "A04", "A05", "A06", "A07", "A08", "A09", "A10",
   "A11", "A12", "A13", "A14", "A15", "A16", "A17", "A18", "A19", "A20", "A21"]

/-- C5 (counterexample): with 21 selected stocks the run does not fail
before simulation — the page truncates the list to its first 20 entries,
proceeds to compute weights for them and the engine runs. -/
theorem maxstocks_cex :
    MAX_PORTFOLIO_STOCKS < sel21.length ∧
    (pageFlow sel21 AllocMethod.equalWeight (fun _ => Option.none) []).1
      = PageOutcome.ran (sel21.take MAX_PORTFOLIO_STOCKS)
          (computeWeights AllocMethod.equalWeight (sel21.take MAX_PORTFOLIO_STOCKS)
            (fun _ => Option.none) []) ∧
    (pageRun sel21 AllocMethod.equalWeight (fun _ => Option.none) []
      exInput exDays).stoppedEarly = false :=
  ⟨by decide, by with_unfolding_all decide, by with_unfolding_all decide⟩

/-- C5 (witness): the amended truncation behavior at the concrete 21-entry
selection. -/
theorem clamp_truncates_witness :
    pageFlow sel21 AllocMethod.equalWeight (fun _ => Option.none) []
      = ((pageFlow (sel21.take MAX_PORTFOLIO_STOCKS) AllocMethod.equalWeight
          (fun _ => Option.none) []).1, true) :=
  clamp_truncates sel21 AllocMethod.equalWeight (fun _ => Option.none) [] (by decide)

/-- C9: under Equal Weight allocation with a non-empty, duplicate-free
selection of n stocks (within the stock limit), the weight mapping has
exactly the selected stocks as keys, assigns 1/n to each, sums to exactly
1, passes the `np.isclose` validation, and the page proceeds to the run —
it is never rejected for bad weights. -/
theorem equal_weight_allocation (sel : List String) (yields : String → Option ℚ)
    (custom : WeightMap) (h0 : sel ≠ []) (hnd : sel.Nodup)
    (hlen : sel.length ≤ MAX_PORTFOLIO_STOCKS) :
    (computeWeights AllocMethod.equalWeight sel yields custom).map Prod.fst = sel ∧
    (∀ pr ∈ computeWeights AllocMethod.equalWeight sel yields custom,
      pr.2 = 1 / (sel.length : ℚ)) ∧
    sumWeights (computeWeights AllocMethod.equalWeight sel yields custom) = 1 ∧
    npIsClose (sumWeights (computeWeights AllocMethod.equalWeight sel yields custom)) 1
      = true ∧
    (pageFlow sel AllocMethod.equalWeight yields custom).1
      = PageOutcome.ran sel (computeWeights AllocMethod.equalWeight sel yields custom) := by
  have hlq : (sel.length : ℚ) ≠ 0 := by
    have : sel.length ≠ 0 := fun hz => h0 (List.length_eq_zero.mp hz)
    exact_mod_cast this
  have hsum : sumWeights (computeWeights AllocMethod.equalWeight sel yields custom) = 1 := by
    unfold computeWeights sumWeights
    simp only [List.map_map]
    rw [show (Prod.snd ∘ fun s : String => (s, 1 / (sel.length : ℚ)))
        = fun _ : String => 1 / (sel.length : ℚ) from rfl]
    rw [sum_map_constQ]
    field_simp
  have hclose : npIsClose (sumWeights (computeWeights AllocMethod.equalWeight sel yields custom)) 1
      = true := by
    rw [hsum]
    with_unfolding_all decide
  refine ⟨?_, ?_, hsum, hclose, ?_⟩
  · unfold computeWeights
    simp only [List.map_map]
    show List.map (fun s : String => s) sel = sel
    simp
  · intro pr hpr
    unfold computeWeights at hpr
    rcases List.mem_map.mp hpr with ⟨s, _, hs⟩
    rw [← hs]
  · unfold pageFlow clampSelectedStocks
    simp only
    rw [if_neg (not_lt.mpr hlen)]
    simp only
    have hz : ¬ (sel.length = 0) := fun hz => h0 (List.length_eq_zero.mp hz)
    rw [if_neg hz, if_pos hclose]

/-- C9 (witness): the Equal Weight statement at the concrete two-stock
selection. -/
theorem equal_weight_allocation_witness :
    (computeWeights AllocMethod.equalWeight ["A", "B"] (fun _ => Option.none) []).map Prod.fst
      = ["A", "B"] ∧
    (∀ pr ∈ computeWeights AllocMethod.equalWeight ["A", "B"] (fun _ => Option.none) [],
      pr.2 = 1 / ((["A", "B"] : List String).length : ℚ)) ∧
    sumWeights (computeWeights AllocMethod.equalWeight ["A", "B"] (fun _ => Option.none) []) = 1 ∧
    npIsClose (sumWeights
      (computeWeights AllocMethod.equalWeight ["A", "B"] (fun _ => Option.none) [])) 1 = true ∧
    (pageFlow ["A", "B"] AllocMethod.equalWeight (fun _ => Option.none) []).1
      = PageOutcome.ran ["A", "B"]
          (computeWeights AllocMethod.equalWeight ["A", "B"] (fun _ => Option.none) []) :=
  equal_weight_allocation ["A", "B"] (fun _ => Option.none) []
    (by decide) (by decide) (by decide)

/-- C10: under Yield Weight allocation (missing yields counted as 0), when
the total yield of the selected stocks is positive the weight mapping has
exactly the selected stocks as keys with each weight equal to its yield
divided by the total — so the weights sum to exactly 1 and a stock with
missing yield data gets weight exactly 0 — and when the total yield is not
positive, equal weights 1/n are used instead. -/
theorem yield_weight_allocation (sel : List String) (yields : String → Option ℚ)
    (custom : WeightMap) (hnd : sel.Nodup) :
    (0 < (sel.map (yieldOf yields)).sum →
      computeWeights AllocMethod.yieldWeight sel yields custom
        = sel.map (fun s => (s, yieldOf yields s / (sel.map (yieldOf yields)).sum)) ∧
      sumWeights (computeWeights AllocMethod.yieldWeight sel yields custom) = 1 ∧
      (∀ s ∈ sel, yields s = Option.none →
        (s, (0:ℚ)) ∈ computeWeights AllocMethod.yieldWeight sel yields custom)) ∧
    ((sel.map (yieldOf yields)).sum ≤ 0 →
      computeWeights AllocMethod.yieldWeight sel yields custom
        = sel.map (fun s => (s, 1 / (sel.length : ℚ)))) := by
  constructor
  · intro hpos
    have heq : computeWeights AllocMethod.yieldWeight sel yields custom
        = sel.map (fun s => (s, yieldOf yields s / (sel.map (yieldOf yields)).sum)) := by
      unfold computeWeights
      simp only
      rw [if_pos hpos]
    refine ⟨heq, ?_, ?_⟩
    · rw [heq]
      unfold sumWeights
      simp only [List.map_map]
      rw [show (Prod.snd ∘ fun s : String =>
            (s, yieldOf yields s / (sel.map (yieldOf yields)).sum))
          = fun s : String => yieldOf yields s / (sel.map (yieldOf yields)).sum from rfl]
      rw [sum_map_div]
      exact div_self (ne_of_gt hpos)
    · intro s hs hmiss
      rw [heq]
      have hy : yieldOf yields s = 0 := by
        unfold yieldOf
        rw [hmiss]
        rfl
      have : (s, (0:ℚ)) = (fun s => (s, yieldOf yields s / (sel.map (yieldOf yields)).sum)) s := by
        simp [hy]
      rw [this]
      exact List.mem_map_of_mem _ hs
  · intro hnonpos
    unfold computeWeights
    simp only
    rw [if_neg (not_lt.mpr hnonpos)]

/-- Concrete yield table: stock "A" yields 3, stock "B" has no yield
data. -/
def exYields : String → Option ℚ :=
  fun s => if s = "A" then some 3 else Option.none

/-- C10 (witness): the Yield Weight statement at the concrete two-stock
selection with total yield 3 > 0; "B" has missing yield data and receives
weight 0. -/
theorem yield_weight_allocation_witness :
    computeWeights AllocMethod.yieldWeight ["A", "B"] exYields []
      = (["A", "B"] : List String).map
          (fun s => (s, yieldOf exYields s / ((["A", "B"] : List String).map (yieldOf exYields)).sum)) ∧
    sumWeights (computeWeights AllocMethod.yieldWeight ["A", "B"] exYields []) = 1 ∧
    (∀ s ∈ (["A", "B"] : List String), exYields s = Option.none →
      (s, (0:ℚ)) ∈ computeWeights AllocMethod.yieldWeight ["A", "B"] exYields []) :=
  (yield_weight_allocation ["A", "B"] exYields [] (by decide)).1
    (by with_unfolding_all decide)

/-- C7 (witness): the guards evaluated on concrete series — a flat return
series `[0, 0]` (variance 0) and the value series `[1, 2, 1]` (negative
drawdown). -/
theorem metrics_guards_witness :
    varQ [(0:ℚ), 0] = 0 ∧
    sharpeRatio (fun x => x) [(0:ℚ), 0] 0 = 0 ∧
    sortinoRatio (fun x => x) [(0:ℚ), 0] 0 = 0 ∧
    maxDrawdown [(1:ℚ), 2, 1] ≤ 0 ∧
    calmarRatio (1/10) 0 = Option.none :=
  ⟨by with_unfolding_all decide,
   (metrics_guards (fun x => x) [1, 2, 1] [0, 0] 0 (1/10)).2.1 (by with_unfolding_all decide),
   (metrics_guards (fun x => x) [1, 2, 1] [0, 0] 0 (1/10)).2.2.1 (by with_unfolding_all decide),
   (metrics_guards (fun x => x) [1, 2, 1] [0, 0] 0 (1/10)).1,
   (metrics_guards (fun x => x) [1, 2, 1] [0, 0] 0 (1/10)).2.2.2.1⟩

end Backtest
